import Mathlib

/-!
Verification of the Ormur attribute/lifecycle engine (`src/lib/index.js`,
`src/lib/util.js`, `src/lib/error.js`) against its natural-language
specification.  The JavaScript source is shallowly embedded: JS values that
flow through the engine become the inductive `Value` (with an explicit
`undef` constructor mirroring JS `undefined`, and a `promise` constructor
mirroring a pending thenable), the mutable `this._properties` object becomes
an ordered association list `Props`, and each method of the `Ormur` class
becomes a Lean function translated statement by statement from the source.
-/

namespace Ormur

/-- JS values that the engine inspects: `undefined`, `null`, strings,
integer numbers, booleans, `Date` objects (by timestamp), and pending
promises (carrying the value they will eventually resolve to). -/
inductive Value where
  | undef
  | null
  | str (s : String)
  | int (n : Int)
  | bool (b : Bool)
  | date (t : Int)
  | promise (v : Value)
deriving DecidableEq

/-- JS truthiness for the values of `Value` (`undefined`, `null`, `false`,
`0` and the empty string are falsy; objects such as dates and promises are
truthy). -/
def truthy : Value → Bool
  | Value.undef => false
  | Value.null => false
  | Value.str s => !(s == "")
  | Value.int n => !(n == 0)
  | Value.bool b => b
  | Value.date _ => true
  | Value.promise _ => true

/-- ASCII uppercase test, used by the word splitter of the casing helpers. -/
def isAsciiUpper (c : Char) : Bool := 'A' ≤ c && c ≤ 'Z'

/-- Word splitter shared by the casing helpers: splits on non-alphanumeric
separators and on lower-to-upper boundaries.  The first argument is the
current word accumulated in reverse.  Models the word splitting of the
external lodash dependency for ASCII identifier inputs. -/
def wordsAux : List Char → List Char → List (List Char)
  | cur, [] => if cur.isEmpty then [] else [cur.reverse]
  | cur, c :: rest =>
    if !c.isAlphanum then
      if cur.isEmpty then wordsAux [] rest else cur.reverse :: wordsAux [] rest
    else if isAsciiUpper c then
      match cur with
      | [] => wordsAux [c] rest
      | pc :: _ =>
        if isAsciiUpper pc then wordsAux (c :: cur) rest
        else cur.reverse :: wordsAux [c] rest
    else wordsAux (c :: cur) rest

/-- The words of a string, per `wordsAux`. -/
def wordsOf (s : String) : List String :=
  (wordsAux [] s.data).map (fun l => String.mk l)

/-- Lowercase an entire word (ASCII). -/
def lowerWord (w : String) : String := String.mk (w.data.map Char.toLower)

/-- Capitalize a word: first character uppercased, the rest lowercased. -/
def capWord (w : String) : String :=
  match w.data with
  | [] => ""
  | c :: cs => String.mk (Char.toUpper c :: cs.map Char.toLower)

/-- Model of lodash `_.camelCase` for ASCII identifiers: first word
lowercased, later words capitalized, separators dropped. -/
def camelCase (s : String) : String :=
  match wordsOf s with
  | [] => ""
  | w :: ws => lowerWord w ++ String.join (ws.map capWord)

/-- Model of lodash `_.snakeCase` for ASCII identifiers: lowercased words
joined by underscores. -/
def snakeCase (s : String) : String :=
  String.intercalate "_" ((wordsOf s).map lowerWord)

/-- Hexadecimal digit test (case-insensitive), for `isUuid`. -/
def isHexChar (c : Char) : Bool :=
  c.isDigit || ('a' ≤ c.toLower && c.toLower ≤ 'f')

/-- Embedding of `util.isUuid`'s RFC4122 regex on the string contents:
five dash-separated groups of hex digits of lengths 8-4-4-4-12, a version
digit 1-5 and a variant character in `[89ab]`, case-insensitive. -/
def isUuidString (s : String) : Bool :=
  match s.splitOn "-" with
  | [a, b, c, d, e] =>
    a.length == 8 && b.length == 4 && c.length == 4 && d.length == 4 &&
    e.length == 12 &&
    a.data.all isHexChar && b.data.all isHexChar && c.data.all isHexChar &&
    d.data.all isHexChar && e.data.all isHexChar &&
    (match c.data with
     | v :: _ => ("12345".data.contains v)
     | [] => false) &&
    (match d.data with
     | v :: _ => ("89ab".data.contains v.toLower)
     | [] => false)
  | _ => false

/-- The `this._properties` object (and plain attribute objects): an ordered
association list from key to value, in JS insertion order. -/
abbrev Props := List (String × Value)

/-- Property read, `obj[key]`: yields `Value.undef` when the key is absent,
exactly as JS yields `undefined`. -/
def getProp : Props → String → Value
  | [], _ => Value.undef
  | e :: rest, k => if e.1 = k then e.2 else getProp rest k

/-- Own-key test, as `_.keys`/`in` would see it (a key holding a stored
`undefined` is still an own key). -/
def hasKey : Props → String → Bool
  | [], _ => false
  | e :: rest, k => if e.1 = k then true else hasKey rest k

/-- Property write, `obj[key] = v`: updates an existing key in place,
otherwise appends, matching JS object key ordering. -/
def setProp : Props → String → Value → Props
  | [], k, v => [(k, v)]
  | e :: rest, k, v =>
    if e.1 = k then (e.1, v) :: rest else e :: setProp rest k v

/-- The keys of a properties object, in order. -/
def keysOf (p : Props) : List String := p.map Prod.fst

/-- The five column type tags of the schema language. -/
inductive ColType where
  | string
  | integer
  | boolean
  | date
  | uuid
deriving DecidableEq

/-- The source's string name of a column type, as interpolated into the
type-mismatch message. -/
def colTypeName : ColType → String
  | ColType.string => "string"
  | ColType.integer => "integer"
  | ColType.boolean => "boolean"
  | ColType.date => "date"
  | ColType.uuid => "uuid"

/-- A declared `defaultValue`: either a literal value or a zero-argument
function (`_.isFunction` distinguishes the two in the source). -/
inductive DefaultV where
  | lit (v : Value)
  | fn (f : Unit → Value)

/-- Resolve a default: call it if it is a function, else use the literal
(the shared idiom of `validate` and `setDefaults`). -/
def resolveDefault : DefaultV → Value
  | DefaultV.lit v => v
  | DefaultV.fn f => f ()

/-- JS truthiness of a declared `defaultValue` (functions are truthy),
as tested by `setDefaults`' `rules.defaultValue` condition. -/
def truthyDV : DefaultV → Bool
  | DefaultV.lit v => truthy v
  | DefaultV.fn _ => true

/-- One column rule of a schema, with every flag the engine reads. -/
structure Rule where
  type : Option ColType := none
  primaryKey : Bool := false
  notNull : Bool := false
  hidden : Bool := false
  auto : Bool := false
  defaultValue : Option DefaultV := none
  transform : Option (Value → Value) := none
  validate : Option (Value → Bool) := none

/-- A resolved schema: column names with their rules, in declaration order
(JS object iteration order of `this.schema`). -/
abbrev Schema := List (String × Rule)

/-- The column names of a schema, in declaration order. -/
def schemaKeys (s : Schema) : List String := s.map Prod.fst

/-- The two validation failure shapes thrown by `validate`, carrying the
data interpolated into the `ValidationError` message. -/
inductive VErr where
  | cannotBeNull (column : String)
  | typeMismatch (column : String) (t : ColType)
  | customFailed (column : String)
deriving DecidableEq

/-- The message string of a `ValidationError`, exactly as the source
templates build it. -/
def vErrMessage : VErr → String
  | VErr.cannotBeNull c => c ++ " cannot be null"
  | VErr.typeMismatch c t => c ++ " must be of type " ++ colTypeName t
  | VErr.customFailed c => "column validation failed for " ++ c

/-- The two configuration failures thrown by `_ensureMinimumConfiguration`. -/
inductive ConfigError where
  | knexNotConfigured
  | primaryKeyMissing
deriving DecidableEq

/-- The message string of a `ConfigurationError`, as the source writes it. -/
def configErrorMessage : ConfigError → String
  | ConfigError.knexNotConfigured => "Knex has not been configured."
  | ConfigError.primaryKeyMissing => "A primary key must be defined."

/-- The built-in type check of `validate`: does the value match the
declared scalar type tag? -/
def typeOk : ColType → Value → Bool
  | ColType.string, Value.str _ => true
  | ColType.integer, Value.int _ => true
  | ColType.boolean, Value.bool _ => true
  | ColType.date, Value.date _ => true
  | ColType.uuid, Value.str s => isUuidString s
  | _, _ => false

/-- The type-check clause of `validate`: fires (returning the offending
declared type) only when the value is neither `undefined` nor `null`, the
rule is not `auto`, a known type tag is declared and the value mismatches. -/
def checkValue (rules : Rule) (value : Value) : Option ColType :=
  if value ≠ Value.undef ∧ value ≠ Value.null ∧ rules.auto = false then
    match rules.type with
    | some t => if typeOk t value then none else some t
    | none => none
  else none

/-- The custom-predicate clause of `validate`: fails only when a predicate
is declared and returns a falsy result. -/
def customFails (rules : Rule) (value : Value) : Bool :=
  match rules.validate with
  | some f => !(f value)
  | none => false

/-- The prospective value used by `validate`'s checks: the current value,
or the resolved default when the current value is `undefined` and a
default is declared (the two opening statements of the per-column loop;
only the local variable is touched). -/
def columnCheckValue (rules : Rule) (v0 : Value) : Value :=
  if v0 = Value.undef then
    match rules.defaultValue with
    | some dv => resolveDefault dv
    | none => v0
  else v0

/-- The body of `validate`'s per-column loop, translated statement by
statement, threading the properties object explicitly so that (absence of)
mutation is visible in the type: read the value, substitute the prospective
default into the local variable when unset, then run the three checks in
source order.  The second component is the properties object as left by the
body. -/
def validateColumnSt (column : String) (rules : Rule) (props : Props) :
    Option VErr × Props :=
  let value := columnCheckValue rules (getProp props column)
  if rules.notNull = true ∧ (value = Value.undef ∨ value = Value.null) then
    (some (VErr.cannotBeNull column), props)
  else
    match checkValue rules value with
    | some t => (some (VErr.typeMismatch column t), props)
    | none =>
      if value ≠ Value.undef ∧ customFails rules value = true then
        (some (VErr.customFailed column), props)
      else (none, props)

/-- `validate`'s loop over the schema: the first failing column aborts the
whole call (the thrown error), the properties object is threaded through. -/
def validateSt : Schema → Props → Option VErr × Props
  | [], p => (none, p)
  | cr :: rest, p =>
    match validateColumnSt cr.1 cr.2 p with
    | (some e, p') => (some e, p')
    | (none, p') => validateSt rest p'

/-- `validate()`: returns `true` on success, throws the first violation. -/
def validate (schema : Schema) (props : Props) : Except VErr Bool :=
  match (validateSt schema props).1 with
  | some e => Except.error e
  | none => Except.ok true

/-- `setDefaults()`: for each column in schema order, when the current
value is `undefined` and `rules.defaultValue` is truthy, write the resolved
default into properties. -/
def setDefaults : Schema → Props → Props
  | [], p => p
  | cr :: rest, p =>
    let p' :=
      match cr.2.defaultValue with
      | some dv =>
        if getProp p cr.1 = Value.undef ∧ truthyDV dv = true then
          setProp p cr.1 (resolveDefault dv)
        else p
      | none => p
    setDefaults rest p'

/-- The synchronous loop of `callTransforms()`: for each column with a
transform, write `transform(currentValue)` into properties immediately; a
thenable result is additionally recorded in the `promises` map together
with the value it will resolve to.  Returns the properties object as it
stands when the method returns (the instance's observable state while any
transform is pending) and the recorded pending results in schema order. -/
def callTransformsPhase1 : Schema → Props → Props × List (String × Value)
  | [], p => (p, [])
  | cr :: rest, p =>
    match cr.2.transform with
    | none => callTransformsPhase1 rest p
    | some f =>
      let nv := f (getProp p cr.1)
      let res := callTransformsPhase1 rest (setProp p cr.1 nv)
      (res.1,
        (match nv with
         | Value.promise w => [(cr.1, w)]
         | _ => []) ++ res.2)

/-- The properties object observable between the synchronous return of
`callTransforms()` and the resolution of its pending promises. -/
def callTransformsIntermediate (schema : Schema) (props : Props) : Props :=
  (callTransformsPhase1 schema props).1

/-- The write-back loop run when `Promise.props` resolves: each awaited
column receives its resolved value, in one synchronous pass. -/
def writeBack : List (String × Value) → Props → Props
  | [], p => p
  | cw :: rest, p => writeBack rest (setProp p cw.1 cw.2)

/-- The properties object after `callTransforms()`'s returned promise has
resolved (when nothing was pending, the source returns `Promise.resolve()`
and the properties are exactly the phase-1 output). -/
def callTransformsFinal (schema : Schema) (props : Props) : Props :=
  writeBack (callTransformsPhase1 schema props).2
    (callTransformsPhase1 schema props).1

/-- `beforeSave()`: `validate`, then `setDefaults`, then `callTransforms`,
in that order; a validation throw aborts before any default is written.
The success value is the final (post-resolution) properties object. -/
def beforeSave (schema : Schema) (props : Props) : Except VErr Props :=
  match validate schema props with
  | Except.error e => Except.error e
  | Except.ok _ =>
    Except.ok (callTransformsFinal schema (setDefaults schema props))

/-- The hidden column names, as `toJSON` computes them
(`map` to `key`/`null` then `compact`). -/
def hiddenColumns (schema : Schema) : List String :=
  schema.filterMap (fun cr => if cr.2.hidden then some cr.1 else none)

/-- `_.omit`: drop the entries whose key is listed. -/
def omitKeys (p : Props) (cols : List String) : Props :=
  p.filter (fun e => !(cols.contains e.1))

/-- `util.camelCased`: rebuild the object with camel-cased keys
(`_.reduce` with `memo[camelCase(key)] = value`). -/
def camelCasedAux : Props → Props → Props
  | memo, [] => memo
  | memo, e :: rest => camelCasedAux (setProp memo (camelCase e.1) e.2) rest

/-- `util.camelCased`, entry point. -/
def camelCased (p : Props) : Props := camelCasedAux [] p

/-- `util.snakeCased`: rebuild the object with snake-cased keys. -/
def snakeCasedAux : Props → Props → Props
  | memo, [] => memo
  | memo, e :: rest => snakeCasedAux (setProp memo (snakeCase e.1) e.2) rest

/-- `util.snakeCased`, entry point. -/
def snakeCased (p : Props) : Props := snakeCasedAux [] p

/-- `toJSON()`: omit the hidden columns from properties, then camel-case
the remaining keys. -/
def toJSON (schema : Schema) (props : Props) : Props :=
  camelCased (omitKeys props (hiddenColumns schema))

/-- The `_.each` loop of `_applySchema` that records the primary key:
the last schema entry flagged `primaryKey` wins. -/
def findPKAux (acc : Option String) : Schema → Option String
  | [] => acc
  | cr :: rest => findPKAux (if cr.2.primaryKey then some cr.1 else acc) rest

/-- The primary-key column recorded by `_applySchema`. -/
def findPrimaryKey (schema : Schema) : Option String := findPKAux none schema

/-- The number of schema rules flagged `primaryKey: true`. -/
def countPrimaryKeys (schema : Schema) : Nat :=
  (schema.filter (fun cr => cr.2.primaryKey)).length

/-- The `_.reduce` of `_applySchema` that seeds properties: for each schema
column, prefer the camel-keyed attribute, then the snake-cased key, else
leave the column unset. -/
def initPropsAux : Schema → Props → Props → Props
  | [], _, memo => memo
  | cr :: rest, attrs, memo =>
    let av := getProp attrs cr.1
    let sv := getProp attrs (snakeCase cr.1)
    let memo' :=
      if av ≠ Value.undef then setProp memo cr.1 av
      else if sv ≠ Value.undef then setProp memo cr.1 sv
      else memo
    initPropsAux rest attrs memo'

/-- The seeded properties of a newly constructed instance (the merge with
`this._properties` is the identity: that field is still `undefined` when
the base constructor runs). -/
def initProps (schema : Schema) (attrs : Props) : Props :=
  initPropsAux schema attrs []

/-- The observable state of a model instance: the recorded primary-key
column, the properties object (`none` for a context-only instance, which
returns before `_properties` is created), the accessor-bearing keys
(`Object.defineProperty` targets), ordinary non-accessor fields, and
whether `this.knex` has been assigned. -/
structure ModelState where
  primaryKey : Option String
  props : Option Props
  accessors : List String
  extraFields : Props
  knexConfigured : Bool
deriving DecidableEq

/-- The base constructor together with `_applySchema`: records the primary
key; a truthy `_empty` attribute short-circuits before properties and
accessors are created; otherwise properties are seeded and one accessor
per schema column installed.  `this.knex` is not assigned here. -/
def construct (schema : Schema) (attrs : Props) : ModelState :=
  let pk := findPrimaryKey schema
  if truthy (getProp attrs "_empty") then
    { primaryKey := pk, props := none, accessors := [], extraFields := [],
      knexConfigured := false }
  else
    { primaryKey := pk, props := some (initProps schema attrs),
      accessors := schemaKeys schema, extraFields := [],
      knexConfigured := false }

/-- The subclass constructor's post-`super()` wiring of the store
dependency (`this.knex = knexConnection`). -/
def setKnex (s : ModelState) : ModelState := { s with knexConfigured := true }

/-- `_ensureMinimumConfiguration()`: throw when `this.knex` is undefined,
then when no primary key was recorded. -/
def ensureMinimumConfiguration (s : ModelState) : Except ConfigError Unit :=
  if s.knexConfigured = false then Except.error ConfigError.knexNotConfigured
  else if s.primaryKey = none then Except.error ConfigError.primaryKeyMissing
  else Except.ok ()

/-- The two-phase construction protocol: the synchronous constructor chain
(base `construct` followed by the subclass's wiring of `this`) runs to
completion, and only on the next tick does `_ensureMinimumConfiguration`
inspect the finished state. -/
def constructAndCheck (schema : Schema) (attrs : Props)
    (wire : ModelState → ModelState) : Except ConfigError ModelState :=
  match ensureMinimumConfiguration (wire (construct schema attrs)) with
  | Except.error e => Except.error e
  | Except.ok _ => Except.ok (wire (construct schema attrs))

/-- Whether an `Except` is a success. -/
def exceptOk {ε α : Type} : Except ε α → Bool
  | Except.ok _ => true
  | Except.error _ => false

/-- An assignment `instance[k] = v`: through the accessor (hence into
`_properties`) when `k` has one, otherwise an ordinary own field. -/
def writeProperty (s : ModelState) (k : String) (v : Value) : ModelState :=
  if s.accessors.contains k then
    { s with props := some (setProp (s.props.getD []) k v) }
  else
    { s with extraFields := setProp s.extraFields k v }

/-! Library of facts about the property-object primitives. -/

theorem getProp_setProp_self (p : Props) (c : String) (v : Value) :
    getProp (setProp p c v) c = v := by
  induction p with
  | nil => simp [setProp, getProp]
  | cons e rest ih =>
    by_cases h : e.1 = c
    · simp [setProp, getProp, h]
    · simp [setProp, getProp, h, ih]

theorem getProp_setProp_ne (p : Props) (c c' : String) (v : Value)
    (h : c' ≠ c) : getProp (setProp p c' v) c = getProp p c := by
  induction p with
  | nil => simp [setProp, getProp, h]
  | cons e rest ih =>
    by_cases he : e.1 = c'
    · simp [setProp, getProp, he, h]
    · simp [setProp, getProp, he, ih]

theorem hasKey_setProp_self (p : Props) (c : String) (v : Value) :
    hasKey (setProp p c v) c = true := by
  induction p with
  | nil => simp [setProp, hasKey]
  | cons e rest ih =>
    by_cases h : e.1 = c
    · simp [setProp, hasKey, h]
    · simp [setProp, hasKey, h, ih]

theorem keysOf_cons (e : String × Value) (rest : Props) :
    keysOf (e :: rest) = e.1 :: keysOf rest := rfl

theorem hasKey_setProp_mono (p : Props) (c k : String) (v : Value)
    (h : hasKey p k = true) : hasKey (setProp p c v) k = true := by
  induction p with
  | nil => simp [hasKey] at h
  | cons e rest ih =>
    rcases e with ⟨a, b⟩
    by_cases he : a = c
    · subst he
      by_cases hk : a = k
      · simp [setProp, hasKey, hk]
      · simp [setProp, hasKey, hk] at h ⊢
        exact h
    · simp [setProp, hasKey, he] at h ⊢
      by_cases hk : a = k
      · simp [hk]
      · simp [hk] at h ⊢
        exact ih h

theorem mem_keysOf_setProp (p : Props) (c : String) (v : Value) (k : String)
    (h : k ∈ keysOf (setProp p c v)) : k = c ∨ k ∈ keysOf p := by
  induction p with
  | nil =>
    simp [setProp, keysOf] at h
    exact Or.inl h
  | cons e rest ih =>
    rcases e with ⟨a, b⟩
    by_cases he : a = c
    · subst he
      simp [setProp, keysOf_cons] at h ⊢
      tauto
    · simp [setProp, he, keysOf_cons] at h ⊢
      rcases h with h | h
      · tauto
      · rcases ih h with h' | h'
        · tauto
        · tauto

/-! Facts about `validate`: the per-column body and the loop thread the
properties object through unchanged. -/

theorem validateColumnSt_snd (c : String) (r : Rule) (p : Props) :
    (validateColumnSt c r p).2 = p := by
  simp only [validateColumnSt]
  repeat' split
  all_goals rfl

theorem validateSt_snd (s : Schema) (p : Props) : (validateSt s p).2 = p := by
  induction s with
  | nil => rfl
  | cons cr rest ih =>
    unfold validateSt
    rcases h : validateColumnSt cr.1 cr.2 p with ⟨e, p'⟩
    have hp : p' = p := by
      have := validateColumnSt_snd cr.1 cr.2 p
      rw [h] at this
      exact this
    cases e with
    | some e0 => simpa using hp
    | none => simpa [hp] using ih

/-! Facts about the primary-key recording loop of `_applySchema`. -/

theorem findPKAux_isSome_mono (s : Schema) (acc : Option String)
    (h : acc.isSome = true) : (findPKAux acc s).isSome = true := by
  induction s generalizing acc with
  | nil => simpa [findPKAux] using h
  | cons cr rest ih =>
    unfold findPKAux
    by_cases hp : cr.2.primaryKey
    · exact ih _ (by simp [hp])
    · exact ih _ (by simpa [hp] using h)

theorem findPKAux_isSome_of_mem (s : Schema) (acc : Option String)
    (h : ∃ cr ∈ s, cr.2.primaryKey = true) :
    (findPKAux acc s).isSome = true := by
  induction s generalizing acc with
  | nil => rcases h with ⟨cr, hm, _⟩; simp at hm
  | cons cr rest ih =>
    rcases h with ⟨cr', hm, hpk⟩
    rcases List.mem_cons.mp hm with he | hm'
    · subst he
      unfold findPKAux
      rw [hpk]
      exact findPKAux_isSome_mono rest (some cr'.1) rfl
    · exact ih _ ⟨cr', hm', hpk⟩

theorem findPKAux_of_none (s : Schema) (acc : Option String)
    (h : ∀ cr ∈ s, cr.2.primaryKey = false) : findPKAux acc s = acc := by
  induction s generalizing acc with
  | nil => rfl
  | cons cr rest ih =>
    unfold findPKAux
    rw [h cr (List.mem_cons_self cr rest)]
    exact ih acc (fun cr' hm => h cr' (List.mem_cons_of_mem cr hm))

theorem construct_primaryKey (s : Schema) (a : Props) :
    (construct s a).primaryKey = findPrimaryKey s := by
  unfold construct
  split
  · rfl
  · rfl

theorem schemaKeys_cons (cr : String × Rule) (rest : Schema) :
    schemaKeys (cr :: rest) = cr.1 :: schemaKeys rest := rfl

/-! Facts about the two phases of `callTransforms`. -/

theorem callTransformsPhase1_fst_cons (cr : String × Rule) (rest : Schema)
    (p : Props) :
    (callTransformsPhase1 (cr :: rest) p).1 =
      match cr.2.transform with
      | none => (callTransformsPhase1 rest p).1
      | some f =>
        (callTransformsPhase1 rest (setProp p cr.1 (f (getProp p cr.1)))).1 := by
  cases h : cr.2.transform with
  | none => simp [callTransformsPhase1, h]
  | some f => simp [callTransformsPhase1, h]

theorem callTransformsPhase1_snd_cons (cr : String × Rule) (rest : Schema)
    (p : Props) :
    (callTransformsPhase1 (cr :: rest) p).2 =
      match cr.2.transform with
      | none => (callTransformsPhase1 rest p).2
      | some f =>
        (match f (getProp p cr.1) with
         | Value.promise w => [(cr.1, w)]
         | _ => []) ++
        (callTransformsPhase1 rest (setProp p cr.1 (f (getProp p cr.1)))).2 := by
  cases h : cr.2.transform with
  | none => simp [callTransformsPhase1, h]
  | some f => simp [callTransformsPhase1, h]

theorem callTransformsPhase1_getProp_notin (s : Schema) (p : Props)
    (c : String) (h : c ∉ schemaKeys s) :
    getProp (callTransformsPhase1 s p).1 c = getProp p c := by
  induction s generalizing p with
  | nil => rfl
  | cons cr rest ih =>
    rw [schemaKeys_cons] at h
    have hc : cr.1 ≠ c := fun he => h (by rw [← he]; exact List.mem_cons_self _ _)
    have hrest : c ∉ schemaKeys rest := fun hm => h (List.mem_cons_of_mem _ hm)
    rw [callTransformsPhase1_fst_cons]
    cases htr : cr.2.transform with
    | none => exact ih p hrest
    | some f =>
      rw [ih _ hrest]
      exact getProp_setProp_ne p c cr.1 _ hc

theorem callTransformsPhase1_hasKey_mono (s : Schema) (p : Props) (k : String)
    (h : hasKey p k = true) : hasKey (callTransformsPhase1 s p).1 k = true := by
  induction s generalizing p with
  | nil => exact h
  | cons cr rest ih =>
    rw [callTransformsPhase1_fst_cons]
    cases htr : cr.2.transform with
    | none => exact ih p h
    | some f => exact ih _ (hasKey_setProp_mono p cr.1 k _ h)

theorem callTransformsPhase1_getProp_mem (s : Schema) (p : Props) (c : String)
    (r : Rule) (f : Value → Value) (hnd : (schemaKeys s).Nodup)
    (hm : (c, r) ∈ s) (hf : r.transform = some f) :
    getProp (callTransformsPhase1 s p).1 c = f (getProp p c) := by
  induction s generalizing p with
  | nil => simp at hm
  | cons cr rest ih =>
    rw [schemaKeys_cons] at hnd
    rcases List.nodup_cons.mp hnd with ⟨hnotin, hnd'⟩
    rcases List.mem_cons.mp hm with he | hm'
    · subst he
      rw [callTransformsPhase1_fst_cons]
      simp only [hf]
      rw [callTransformsPhase1_getProp_notin rest _ c hnotin]
      exact getProp_setProp_self p c _
    · have hcin : c ∈ schemaKeys rest :=
        List.mem_map.mpr ⟨(c, r), hm', rfl⟩
      have hc : cr.1 ≠ c := fun he2 => hnotin (he2 ▸ hcin)
      rw [callTransformsPhase1_fst_cons]
      cases htr : cr.2.transform with
      | none => exact ih p hnd' hm'
      | some g =>
        rw [ih _ hnd' hm']
        rw [getProp_setProp_ne p c cr.1 _ hc]

theorem callTransformsPhase1_hasKey_mem (s : Schema) (p : Props) (c : String)
    (r : Rule) (f : Value → Value) (hm : (c, r) ∈ s)
    (hf : r.transform = some f) :
    hasKey (callTransformsPhase1 s p).1 c = true := by
  induction s generalizing p with
  | nil => simp at hm
  | cons cr rest ih =>
    rcases List.mem_cons.mp hm with he | hm'
    · subst he
      rw [callTransformsPhase1_fst_cons]
      simp only [hf]
      exact callTransformsPhase1_hasKey_mono rest _ c
        (hasKey_setProp_self p c _)
    · rw [callTransformsPhase1_fst_cons]
      cases htr : cr.2.transform with
      | none => exact ih p hm'
      | some g => exact ih _ hm'

theorem callTransformsPhase1_pend_sublist (s : Schema) (p : Props) :
    ((callTransformsPhase1 s p).2.map Prod.fst).Sublist (schemaKeys s) := by
  induction s generalizing p with
  | nil => simp [callTransformsPhase1]
  | cons cr rest ih =>
    rw [callTransformsPhase1_snd_cons, schemaKeys_cons]
    cases htr : cr.2.transform with
    | none => exact List.Sublist.cons cr.1 (ih p)
    | some f =>
      have hpre : ((match f (getProp p cr.1) with
          | Value.promise w0 => [(cr.1, w0)]
          | _ => ([] : List (String × Value))).map Prod.fst).Sublist
            [cr.1] := by
        cases f (getProp p cr.1) <;> simp
      rw [List.map_append]
      have happ := List.Sublist.append hpre
        (ih (setProp p cr.1 (f (getProp p cr.1))))
      simpa using happ

theorem callTransformsPhase1_pend_promise (s : Schema) (p : Props)
    (c : String) (w : Value) (hnd : (schemaKeys s).Nodup)
    (hm : (c, w) ∈ (callTransformsPhase1 s p).2) :
    getProp (callTransformsPhase1 s p).1 c = Value.promise w := by
  induction s generalizing p with
  | nil => simp [callTransformsPhase1] at hm
  | cons cr rest ih =>
    rw [schemaKeys_cons] at hnd
    rcases List.nodup_cons.mp hnd with ⟨hnotin, hnd'⟩
    rw [callTransformsPhase1_snd_cons] at hm
    rw [callTransformsPhase1_fst_cons]
    cases htr : cr.2.transform with
    | none =>
      simp only [htr] at hm
      exact ih p hnd' hm
    | some f =>
      simp only [htr] at hm
      have hpre : ∀ cw : String × Value,
          cw ∈ (match f (getProp p cr.1) with
            | Value.promise w0 => [(cr.1, w0)]
            | _ => ([] : List (String × Value))) →
          cw.1 = cr.1 ∧ f (getProp p cr.1) = Value.promise cw.2 := by
        cases f (getProp p cr.1) with
        | promise w0 =>
          intro cw hcw
          rw [List.mem_singleton] at hcw
          subst hcw
          exact ⟨rfl, rfl⟩
        | undef => intro cw hcw; simp at hcw
        | null => intro cw hcw; simp at hcw
        | str s0 => intro cw hcw; simp at hcw
        | int n0 => intro cw hcw; simp at hcw
        | bool b0 => intro cw hcw; simp at hcw
        | date t0 => intro cw hcw; simp at hcw
      rcases List.mem_append.mp hm with hpm | hm'
      · rcases hpre _ hpm with ⟨hc1, hnv⟩
        have hc1' : c = cr.1 := hc1
        have hcnotin : c ∉ schemaKeys rest := by
          rw [hc1']
          exact hnotin
        rw [callTransformsPhase1_getProp_notin rest _ c hcnotin]
        rw [hc1', getProp_setProp_self, hnv]
      · exact ih _ hnd' hm'

theorem writeBack_getProp_notin (pend : List (String × Value)) (p : Props)
    (c : String) (h : c ∉ pend.map Prod.fst) :
    getProp (writeBack pend p) c = getProp p c := by
  induction pend generalizing p with
  | nil => rfl
  | cons cw rest ih =>
    simp only [List.map_cons, List.mem_cons] at h
    push_neg at h
    rcases h with ⟨h1, h2⟩
    rw [writeBack, ih _ h2]
    exact getProp_setProp_ne p c cw.1 _ (fun he => h1 he.symm)

theorem writeBack_getProp_mem (pend : List (String × Value)) (p : Props)
    (c : String) (w : Value) (hnd : (pend.map Prod.fst).Nodup)
    (hm : (c, w) ∈ pend) : getProp (writeBack pend p) c = w := by
  induction pend generalizing p with
  | nil => simp at hm
  | cons cw rest ih =>
    simp only [List.map_cons] at hnd
    rcases List.nodup_cons.mp hnd with ⟨hnotin, hnd'⟩
    rcases List.mem_cons.mp hm with he | hm'
    · subst he
      rw [writeBack]
      rw [writeBack_getProp_notin rest _ c hnotin]
      exact getProp_setProp_self p c w
    · rw [writeBack]
      exact ih _ hnd' hm'

theorem mem_keysOf_writeBack (pend : List (String × Value)) (p : Props)
    (k : String) (h : k ∈ keysOf (writeBack pend p)) :
    k ∈ keysOf p ∨ k ∈ pend.map Prod.fst := by
  induction pend generalizing p with
  | nil => exact Or.inl h
  | cons cw rest ih =>
    rw [writeBack] at h
    rcases ih _ h with h' | h'
    · rcases mem_keysOf_setProp p cw.1 cw.2 k h' with h2 | h2
      · right
        simp [h2]
      · exact Or.inl h2
    · right
      simp only [List.map_cons, List.mem_cons]
      exact Or.inr h'

theorem mem_keysOf_phase1 (s : Schema) (p : Props) (k : String)
    (h : k ∈ keysOf (callTransformsPhase1 s p).1) :
    k ∈ keysOf p ∨ k ∈ schemaKeys s := by
  induction s generalizing p with
  | nil => exact Or.inl h
  | cons cr rest ih =>
    rw [callTransformsPhase1_fst_cons] at h
    cases htr : cr.2.transform with
    | none =>
      rw [htr] at h
      rcases ih _ h with h' | h'
      · exact Or.inl h'
      · right
        rw [schemaKeys_cons]
        exact List.mem_cons_of_mem _ h'
    | some f =>
      rw [htr] at h
      rcases ih _ h with h' | h'
      · rcases mem_keysOf_setProp p cr.1 _ k h' with h2 | h2
        · right
          rw [schemaKeys_cons, h2]
          exact List.mem_cons_self _ _
        · exact Or.inl h2
      · right
        rw [schemaKeys_cons]
        exact List.mem_cons_of_mem _ h'

theorem mem_keysOf_setDefaults (s : Schema) (p : Props) (k : String)
    (h : k ∈ keysOf (setDefaults s p)) : k ∈ keysOf p ∨ k ∈ schemaKeys s := by
  induction s generalizing p with
  | nil => exact Or.inl h
  | cons cr rest ih =>
    rw [setDefaults] at h
    rcases hdv : cr.2.defaultValue with _ | dv
    · simp only [hdv] at h
      rcases ih _ h with h' | h'
      · exact Or.inl h'
      · right
        rw [schemaKeys_cons]
        exact List.mem_cons_of_mem _ h'
    · simp only [hdv] at h
      by_cases hc : getProp p cr.1 = Value.undef ∧ truthyDV dv = true
      · rw [if_pos hc] at h
        rcases ih _ h with h' | h'
        · rcases mem_keysOf_setProp p cr.1 _ k h' with h2 | h2
          · right
            rw [schemaKeys_cons, h2]
            exact List.mem_cons_self _ _
          · exact Or.inl h2
        · right
          rw [schemaKeys_cons]
          exact List.mem_cons_of_mem _ h'
      · rw [if_neg hc] at h
        rcases ih _ h with h' | h'
        · exact Or.inl h'
        · right
          rw [schemaKeys_cons]
          exact List.mem_cons_of_mem _ h'

theorem mem_keysOf_initPropsAux (s : Schema) (attrs memo : Props) (k : String)
    (h : k ∈ keysOf (initPropsAux s attrs memo)) :
    k ∈ keysOf memo ∨ k ∈ schemaKeys s := by
  induction s generalizing memo with
  | nil => exact Or.inl h
  | cons cr rest ih =>
    rw [initPropsAux] at h
    rcases ih _ h with h' | h'
    · by_cases h1 : getProp attrs cr.1 ≠ Value.undef
      · rw [if_pos h1] at h'
        rcases mem_keysOf_setProp memo cr.1 _ k h' with h2 | h2
        · right
          rw [schemaKeys_cons, h2]
          exact List.mem_cons_self _ _
        · exact Or.inl h2
      · rw [if_neg h1] at h'
        by_cases h2 : getProp attrs (snakeCase cr.1) ≠ Value.undef
        · rw [if_pos h2] at h'
          rcases mem_keysOf_setProp memo cr.1 _ k h' with h3 | h3
          · right
            rw [schemaKeys_cons, h3]
            exact List.mem_cons_self _ _
          · exact Or.inl h3
        · rw [if_neg h2] at h'
          exact Or.inl h'
    · right
      rw [schemaKeys_cons]
      exact List.mem_cons_of_mem _ h'

/-! Facts about the serializer helpers. -/

theorem mem_keysOf_camelCasedAux (p memo : Props) (k : String)
    (h : k ∈ keysOf (camelCasedAux memo p)) :
    k ∈ keysOf memo ∨ ∃ c, c ∈ keysOf p ∧ k = camelCase c := by
  induction p generalizing memo with
  | nil => exact Or.inl h
  | cons e rest ih =>
    rw [camelCasedAux] at h
    rcases ih _ h with h' | h'
    · rcases mem_keysOf_setProp memo (camelCase e.1) e.2 k h' with h2 | h2
      · right
        exact ⟨e.1, by rw [keysOf_cons]; exact List.mem_cons_self _ _, h2⟩
      · exact Or.inl h2
    · rcases h' with ⟨c, hc, hk⟩
      right
      exact ⟨c, by rw [keysOf_cons]; exact List.mem_cons_of_mem _ hc, hk⟩

theorem mem_keysOf_omitKeys (p : Props) (cols : List String) (k : String)
    (h : k ∈ keysOf (omitKeys p cols)) :
    k ∈ keysOf p ∧ cols.contains k = false := by
  rcases List.mem_map.mp h with ⟨e, he, hk⟩
  rcases List.mem_filter.mp he with ⟨hep, hpred⟩
  subst hk
  constructor
  · exact List.mem_map.mpr ⟨e, hep, rfl⟩
  · simpa using hpred

theorem mem_hiddenColumns (s : Schema) (c : String) (r : Rule)
    (hm : (c, r) ∈ s) (hh : r.hidden = true) : c ∈ hiddenColumns s := by
  unfold hiddenColumns
  exact List.mem_filterMap.mpr ⟨(c, r), hm, by simp [hh]⟩

/-- When the not-null guard of the per-column check cannot fire (either the
rule is not `notNull` or the prospective value is neither `undefined` nor
`null`), the column can only fail with a type-mismatch or custom violation,
never with a required-field ("cannot be null") one. -/
theorem validateColumnSt_no_null_error (c : String) (r : Rule) (p : Props)
    (h : ¬(r.notNull = true ∧
      (columnCheckValue r (getProp p c) = Value.undef ∨
       columnCheckValue r (getProp p c) = Value.null))) :
    ∀ e, (validateColumnSt c r p).1 = some e →
      ∀ c', e ≠ VErr.cannotBeNull c' := by
  intro e he c'
  unfold validateColumnSt at he
  rw [if_neg h] at he
  split at he
  · simp only [] at he
    rw [Option.some.injEq] at he
    subst he
    exact fun heq => VErr.noConfusion heq
  · split at he
    · simp only [] at he
      rw [Option.some.injEq] at he
      subst he
      exact fun heq => VErr.noConfusion heq
    · simp at he

/-! The claim theorems. -/

/-- Claim C6: `validate()` never mutates the properties mapping: both the
whole loop and every per-column body of the statement-level embedding
return the threaded properties object unchanged, whether the call succeeds
or throws, even when a prospective default value is substituted for the
required/type/predicate checks. -/
theorem validate_preserves_properties (schema : Schema) (props : Props) :
    (validateSt schema props).2 = props ∧
    ∀ c r, (validateColumnSt c r props).2 = props :=
  ⟨validateSt_snd schema props, fun c r => validateColumnSt_snd c r props⟩

/-- Claim C4: a column with `notNull: true` and no `defaultValue` fails
validation with a ValidationError whose message names the column whenever
the column is unset or null; conversely, an unset column without a
`notNull` rule never produces a required-field ("cannot be null")
violation. -/
theorem requiredColumn_validation_error (c : String) (r : Rule)
    (props : Props) :
    (r.notNull = true → r.defaultValue = none →
      (getProp props c = Value.undef ∨ getProp props c = Value.null) →
      validate [(c, r)] props = Except.error (VErr.cannotBeNull c) ∧
      vErrMessage (VErr.cannotBeNull c) = c ++ " cannot be null") ∧
    (r.notNull = false → getProp props c = Value.undef →
      ∀ e, (validateColumnSt c r props).1 = some e →
        ∀ c', e ≠ VErr.cannotBeNull c') := by
  constructor
  · intro h1 h2 h3
    refine ⟨?_, rfl⟩
    have hval : columnCheckValue r (getProp props c) = getProp props c := by
      unfold columnCheckValue
      rw [h2]
      split
      · rfl
      · rfl
    have hcond : r.notNull = true ∧
        (columnCheckValue r (getProp props c) = Value.undef ∨
         columnCheckValue r (getProp props c) = Value.null) := by
      rw [hval]
      exact ⟨h1, h3⟩
    unfold validate validateSt validateColumnSt
    rw [if_pos hcond]
  · intro h1 _h2
    apply validateColumnSt_no_null_error
    intro hcontra
    rw [h1] at hcontra
    simp at hcontra

/-- Claim C1: `beforeSave()` runs the pre-save pipeline in the fixed order
validate, then setDefaults, then callTransforms: a validation throw
propagates before any default is written, success hands
`setDefaults`' output to the transforms, and because validation reads the
prospective default, a required column whose resolved default is neither
`undefined` nor `null` can never fail the required-field check while
unset. -/
theorem beforeSave_pipeline_order (schema : Schema) (props : Props) :
    (∀ e, validate schema props = Except.error e →
        beforeSave schema props = Except.error e) ∧
    (validate schema props = Except.ok true →
        beforeSave schema props =
          Except.ok (callTransformsFinal schema (setDefaults schema props))) ∧
    (∀ c r dv, getProp props c = Value.undef → r.defaultValue = some dv →
        resolveDefault dv ≠ Value.undef → resolveDefault dv ≠ Value.null →
        ∀ e, (validateColumnSt c r props).1 = some e →
          ∀ c', e ≠ VErr.cannotBeNull c') := by
  refine ⟨?_, ?_, ?_⟩
  · intro e he
    unfold beforeSave
    rw [he]
  · intro hok
    unfold beforeSave
    rw [hok]
  · intro c r dv hu hdv h4 h5
    apply validateColumnSt_no_null_error
    intro hcontra
    have hv : columnCheckValue r (getProp props c) = resolveDefault dv := by
      unfold columnCheckValue
      rw [hu]
      simp [hdv]
    rw [hv] at hcontra
    rcases hcontra with ⟨_, hd | hd⟩
    · exact h4 hd
    · exact h5 hd

/-- The deferred check succeeds whenever the subclass wired the store
dependency and `_applySchema` recorded some primary key. -/
theorem deferredCheck_ok_of_pk (schema : Schema) (attrs : Props)
    (h : (findPrimaryKey schema).isSome = true) :
    exceptOk (constructAndCheck schema attrs setKnex) = true := by
  have h1 : ¬((setKnex (construct schema attrs)).knexConfigured = false) := by
    simp [setKnex]
  have h2 : ¬((setKnex (construct schema attrs)).primaryKey = none) := by
    have he : (setKnex (construct schema attrs)).primaryKey =
        findPrimaryKey schema := by
      rw [show (setKnex (construct schema attrs)).primaryKey =
        (construct schema attrs).primaryKey from rfl, construct_primaryKey]
    rw [he]
    intro hn
    rw [hn] at h
    simp at h
  have hok : ensureMinimumConfiguration (setKnex (construct schema attrs)) =
      Except.ok () := by
    unfold ensureMinimumConfiguration
    rw [if_neg h1, if_neg h2]
  simp only [constructAndCheck, hok]
  rfl

/-- The deferred check fails with the primary-key error whenever the store
dependency is wired but no schema rule was flagged `primaryKey`. -/
theorem deferredCheck_err_of_no_pk (schema : Schema) (attrs : Props)
    (h : findPrimaryKey schema = none) :
    constructAndCheck schema attrs setKnex =
      Except.error ConfigError.primaryKeyMissing := by
  have h1 : ¬((setKnex (construct schema attrs)).knexConfigured = false) := by
    simp [setKnex]
  have h2 : (setKnex (construct schema attrs)).primaryKey = none := by
    rw [show (setKnex (construct schema attrs)).primaryKey =
      (construct schema attrs).primaryKey from rfl, construct_primaryKey, h]
  have herr : ensureMinimumConfiguration (setKnex (construct schema attrs)) =
      Except.error ConfigError.primaryKeyMissing := by
    unfold ensureMinimumConfiguration
    rw [if_neg h1, if_pos h2]
  simp only [constructAndCheck, herr]

/-- Claim C2 (amended): with the store interface wired by the subclass
constructor, the deferred configuration check raises ConfigurationError
exactly for schemas with zero `primaryKey` rules; with one OR MORE such
rules (the last declared one winning) it never raises. -/
theorem primaryKey_deferred_check_amended (schema : Schema) (attrs : Props) :
    (1 ≤ countPrimaryKeys schema →
      exceptOk (constructAndCheck schema attrs setKnex) = true) ∧
    (countPrimaryKeys schema = 0 →
      constructAndCheck schema attrs setKnex =
        Except.error ConfigError.primaryKeyMissing) := by
  constructor
  · intro h
    have hex : ∃ cr ∈ schema, cr.2.primaryKey = true := by
      have hne : schema.filter (fun cr => cr.2.primaryKey) ≠ [] := by
        intro hnil
        rw [countPrimaryKeys, hnil] at h
        simp at h
      rcases List.exists_mem_of_ne_nil _ hne with ⟨cr, hcr⟩
      rcases List.mem_filter.mp hcr with ⟨hin, hpk⟩
      exact ⟨cr, hin, hpk⟩
    exact deferredCheck_ok_of_pk schema attrs
      (findPKAux_isSome_of_mem schema none hex)
  · intro h
    have hall : ∀ cr ∈ schema, cr.2.primaryKey = false := by
      have hnil : schema.filter (fun cr => cr.2.primaryKey) = [] := by
        rw [countPrimaryKeys] at h
        exact List.length_eq_zero.mp h
      intro cr hcr
      by_contra hx
      have hmem : cr ∈ schema.filter (fun cr => cr.2.primaryKey) :=
        List.mem_filter.mpr ⟨hcr, by simpa using hx⟩
      rw [hnil] at hmem
      simp at hmem
    exact deferredCheck_err_of_no_pk schema attrs
      (findPKAux_of_none schema none hall)

/-- An integer primary-key rule, as in the advanced example's base model. -/
def c2PkRule : Rule := { type := some ColType.integer, primaryKey := true }

/-- A schema with a single primary key for the C2 witness. -/
def c2OnePkSchema : Schema := [("id", c2PkRule)]

/-- A schema with no primary key at all for the C2 witness. -/
def c2NoPkSchema : Schema := [("name", { type := some ColType.string })]

/-- Counterexample for C2 as stated: a schema with TWO rules flagged
`primaryKey: true` passes the deferred configuration check — the claim
requires it to always raise ConfigurationError, but
`_applySchema` simply lets the last flagged column win and
`_ensureMinimumConfiguration` only tests that some primary key exists. -/
theorem twoPrimaryKeys_check_passes_cex :
    countPrimaryKeys [("a", c2PkRule), ("b", c2PkRule)] = 2 ∧
    exceptOk (constructAndCheck [("a", c2PkRule), ("b", c2PkRule)] []
      setKnex) = true := ⟨rfl, rfl⟩

/-- Witness for C2 (amended) at a one-primary-key schema and at a
zero-primary-key schema. -/
theorem primaryKey_deferred_check_witness :
    exceptOk (constructAndCheck c2OnePkSchema [] setKnex) = true ∧
    constructAndCheck c2NoPkSchema [] setKnex =
      Except.error ConfigError.primaryKeyMissing :=
  ⟨(primaryKey_deferred_check_amended c2OnePkSchema []).1 (by decide),
   (primaryKey_deferred_check_amended c2NoPkSchema []).2 (by decide)⟩

/-- Claim C5: the constructor embedding is a total function into
`ModelState` — a ConfigurationError has no way out of it — and with any
primary-keyed schema the instance still lacks its store interface when the
base constructor finishes (an inline check here would throw the Knex
configuration error), yet the deferred check, run after the subclass
wiring, passes. -/
theorem constructor_defers_configuration_check (schema : Schema)
    (attrs : Props) (h : (findPrimaryKey schema).isSome = true) :
    (construct schema attrs).knexConfigured = false ∧
    ensureMinimumConfiguration (construct schema attrs) =
      Except.error ConfigError.knexNotConfigured ∧
    exceptOk (constructAndCheck schema attrs setKnex) = true := by
  have h1 : (construct schema attrs).knexConfigured = false := by
    unfold construct
    split
    · rfl
    · rfl
  refine ⟨h1, ?_, deferredCheck_ok_of_pk schema attrs h⟩
  unfold ensureMinimumConfiguration
  rw [if_pos h1]

/-- The schema of the basic example's User model, reduced to two columns,
for the C5 witness. -/
def c5Schema : Schema :=
  [("id", { type := some ColType.integer, primaryKey := true }),
   ("name", { type := some ColType.string, notNull := true })]

/-- Witness for C5 at a concrete two-column schema. -/
theorem constructor_defers_configuration_check_witness :
    (construct c5Schema []).knexConfigured = false ∧
    ensureMinimumConfiguration (construct c5Schema []) =
      Except.error ConfigError.knexNotConfigured ∧
    exceptOk (constructAndCheck c5Schema [] setKnex) = true :=
  constructor_defers_configuration_check c5Schema [] (by decide)

/-- A required string column with no default, as in the User example. -/
def c4ReqRule : Rule := { type := some ColType.string, notNull := true }

/-- An optional column whose integer default mismatches the string type. -/
def c4OptRule : Rule :=
  { type := some ColType.string,
    defaultValue := some (DefaultV.lit (Value.int 5)) }

/-- Witness for C4: on the single required column `name` with no value,
validation throws the error naming `name`; on an optional column whose
failing prospective default yields a type violation, that violation is not
a required-field one. -/
theorem requiredColumn_validation_error_witness :
    (validate [("name", c4ReqRule)] [] =
      Except.error (VErr.cannotBeNull "name") ∧
     vErrMessage (VErr.cannotBeNull "name") = "name cannot be null") ∧
    VErr.typeMismatch "nick" ColType.string ≠ VErr.cannotBeNull "nick" := by
  constructor
  · have h := (requiredColumn_validation_error "name" c4ReqRule []).1
      rfl rfl (Or.inl rfl)
    exact ⟨h.1, h.2.trans rfl⟩
  · exact (requiredColumn_validation_error "nick" c4OptRule []).2
      rfl rfl (VErr.typeMismatch "nick" ColType.string) rfl "nick"

/-- A schema whose single required column has no default: validation must
fail before defaults are applied. -/
def c1FailSchema : Schema := [("title", c4ReqRule)]

/-- A schema whose single required column carries a literal default that
satisfies its type, so the pre-default validation passes. -/
def c1OkSchema : Schema :=
  [("count", { type := some ColType.integer, notNull := true,
               defaultValue := some (DefaultV.lit (Value.int 7)) })]

/-- Witness for C1: a failing validation is propagated unchanged by
`beforeSave` (so defaults are never applied), while a schema that
validates via its prospective default proceeds to the
defaults-then-transforms tail. -/
theorem beforeSave_pipeline_order_witness :
    beforeSave c1FailSchema [] = Except.error (VErr.cannotBeNull "title") ∧
    beforeSave c1OkSchema [] =
      Except.ok (callTransformsFinal c1OkSchema (setDefaults c1OkSchema [])) ∧
    VErr.typeMismatch "nick2" ColType.string ≠ VErr.cannotBeNull "nick2" := by
  refine ⟨?_, ?_, ?_⟩
  · exact (beforeSave_pipeline_order c1FailSchema []).1
      (VErr.cannotBeNull "title") rfl
  · exact (beforeSave_pipeline_order c1OkSchema []).2.1 rfl
  · exact (beforeSave_pipeline_order [] []).2.2 "nick2" c4OptRule
      (DefaultV.lit (Value.int 5)) rfl rfl (by decide) (by decide)
      (VErr.typeMismatch "nick2" ColType.string) rfl "nick2"

/-- The rule of C3's counterexample: a required integer column whose
literal default `0` is falsy in JS. -/
def c3ZeroRule : Rule :=
  { type := some ColType.integer, notNull := true,
    defaultValue := some (DefaultV.lit (Value.int 0)) }

/-- Counterexample for C3 as stated: with `notNull: true` and
`defaultValue: 0`, `validate()` passes on the unset column (the
prospective default satisfies the checks, via `!_.isUndefined`), but
`setDefaults()` leaves the column UNSET: its `rules.defaultValue`
truthiness test rejects the falsy literal `0`, so the column is not
populated as the claim requires. -/
theorem falsyDefault_not_populated_cex :
    validate [("count", c3ZeroRule)] [] = Except.ok true ∧
    getProp (setDefaults [("count", c3ZeroRule)] []) "count" = Value.undef ∧
    hasKey (setDefaults [("count", c3ZeroRule)] []) "count" = false :=
  ⟨rfl, rfl, rfl⟩

/-- Claim C3 (amended): for a column rule with `notNull: true` and a
declared `defaultValue` that is JS-truthy (a function, or a non-falsy
literal) and whose resolved value is neither `undefined` nor `null` and
passes the column's type and custom checks, `validate()` on the
single-column schema with the column unset does not raise, and
`setDefaults()` afterwards populates the column with the resolved
default. -/
theorem notNull_default_validate_and_populate_amended (c : String)
    (r : Rule) (props : Props) (dv : DefaultV)
    (_hn : r.notNull = true)
    (hdv : r.defaultValue = some dv)
    (ht : truthyDV dv = true)
    (h4 : resolveDefault dv ≠ Value.undef)
    (h5 : resolveDefault dv ≠ Value.null)
    (h6 : checkValue r (resolveDefault dv) = none)
    (h7 : customFails r (resolveDefault dv) = false)
    (hu : getProp props c = Value.undef) :
    validate [(c, r)] props = Except.ok true ∧
    getProp (setDefaults [(c, r)] props) c = resolveDefault dv := by
  have hv : columnCheckValue r (getProp props c) = resolveDefault dv := by
    unfold columnCheckValue
    rw [hu]
    simp [hdv]
  have hA : ¬(r.notNull = true ∧
      (resolveDefault dv = Value.undef ∨ resolveDefault dv = Value.null)) := by
    rintro ⟨_, hd | hd⟩
    · exact h4 hd
    · exact h5 hd
  have hB : ¬(resolveDefault dv ≠ Value.undef ∧
      customFails r (resolveDefault dv) = true) := by
    rintro ⟨_, hcf⟩
    rw [h7] at hcf
    exact Bool.noConfusion hcf
  have hcol : validateColumnSt c r props = (none, props) := by
    simp only [validateColumnSt, hv, h6]
    rw [if_neg hA, if_neg hB]
  constructor
  · simp [validate, validateSt, hcol]
  · simp only [setDefaults, hdv]
    rw [if_pos ⟨hu, ht⟩]
    exact getProp_setProp_self props c _

/-- A required date column defaulting to a computed timestamp, as the
advanced example's `createdAt` does. -/
def c3FnRule : Rule :=
  { type := some ColType.date, notNull := true,
    defaultValue := some (DefaultV.fn (fun _ => Value.date 0)) }

/-- Witness for C3 (amended) at the computed-default date column. -/
theorem notNull_default_validate_and_populate_witness :
    validate [("createdAt", c3FnRule)] [] = Except.ok true ∧
    getProp (setDefaults [("createdAt", c3FnRule)] []) "createdAt" =
      resolveDefault (DefaultV.fn (fun _ => Value.date 0)) :=
  notNull_default_validate_and_populate_amended "createdAt" c3FnRule []
    (DefaultV.fn (fun _ => Value.date 0)) rfl rfl rfl (by decide)
    (by decide) rfl rfl rfl

/-- A column whose transform completes synchronously. -/
def c7SyncRule : Rule :=
  { type := some ColType.string, transform := some (fun _ => Value.str "sync") }

/-- A column whose transform returns a pending promise, as the User
example's bcrypt password transform does. -/
def c7AsyncRule : Rule :=
  { type := some ColType.string,
    transform := some (fun _ => Value.promise (Value.str "resolved")) }

/-- The two-transform schema of the C7 counterexample. -/
def c7Schema : Schema := [("a", c7SyncRule), ("b", c7AsyncRule)]

/-- Counterexample for C7 as stated: with a synchronous transform on `a`
and an asynchronous one on `b`, the properties object live on the
instance between the synchronous return of `callTransforms()` and the
resolution of its promise — `callTransformsIntermediate` — holds the
already-transformed `a` next to the unresolved pending value for `b`.
That is exactly the partial-pipeline state ("some columns transformed and
others holding unresolved pending values") the claim says is never
observable outside the pipeline call, yet any caller reading the instance
during the pending await sees it: it differs both from the pre-call
properties and from the post-resolution properties. -/
theorem pending_transform_partial_state_cex :
    callTransformsIntermediate c7Schema [] =
      [("a", Value.str "sync"), ("b", Value.promise (Value.str "resolved"))] ∧
    (callTransformsPhase1 c7Schema []).2 = [("b", Value.str "resolved")] ∧
    callTransformsFinal c7Schema [] =
      [("a", Value.str "sync"), ("b", Value.str "resolved")] ∧
    callTransformsIntermediate c7Schema [] ≠ ([] : Props) ∧
    callTransformsIntermediate c7Schema [] ≠ callTransformsFinal c7Schema [] :=
  ⟨rfl, rfl, rfl, by decide, by decide⟩

/-- Claim C7 (amended): the write-back of pending transform results is one
synchronous step over the recorded pending columns, run once all of them
resolve: every pending column then carries its resolved value, and with no
pending transform the post-resolution state is exactly the phase-1 state
(the source still returns a promise in that case, `Promise.resolve()`).
What the original claim gets wrong is the awaiting window itself: while
promises are pending, the instance's observable properties hold those
pending values (each pending column shows its promise placeholder). -/
theorem callTransforms_writeback_amended (schema : Schema) (props : Props)
    (hnd : (schemaKeys schema).Nodup) :
    callTransformsFinal schema props =
      writeBack (callTransformsPhase1 schema props).2
        (callTransformsIntermediate schema props) ∧
    (∀ c w, (c, w) ∈ (callTransformsPhase1 schema props).2 →
      getProp (callTransformsIntermediate schema props) c =
        Value.promise w ∧
      getProp (callTransformsFinal schema props) c = w) ∧
    ((callTransformsPhase1 schema props).2 = [] →
      callTransformsFinal schema props =
        callTransformsIntermediate schema props) := by
  have hndp : ((callTransformsPhase1 schema props).2.map Prod.fst).Nodup :=
    List.Nodup.sublist (callTransformsPhase1_pend_sublist schema props) hnd
  refine ⟨rfl, ?_, ?_⟩
  · intro c w hm
    refine ⟨callTransformsPhase1_pend_promise schema props c w hnd hm, ?_⟩
    unfold callTransformsFinal
    exact writeBack_getProp_mem _ _ c w hndp hm
  · intro hnil
    unfold callTransformsFinal callTransformsIntermediate
    rw [hnil]
    rfl

/-- Witness for C7 (amended): on the two-transform schema the pending
column `b` shows its promise placeholder in the observable intermediate
state and its resolved value after the write-back. -/
theorem callTransforms_writeback_witness :
    getProp (callTransformsIntermediate c7Schema []) "b" =
      Value.promise (Value.str "resolved") ∧
    getProp (callTransformsFinal c7Schema []) "b" = Value.str "resolved" :=
  (callTransforms_writeback_amended c7Schema [] (by decide)).2.1 "b"
    (Value.str "resolved") (by decide)

/-- Claim C10: a declared transform runs even when its column is unset:
the synchronous loop of `callTransforms()` writes `transform(undefined)`
into the properties mapping, so the column afterwards holds that result
and its key exists even when it did not before — an absent column is not
skipped. -/
theorem transform_runs_on_unset_column (schema : Schema) (props : Props)
    (c : String) (r : Rule) (f : Value → Value)
    (hnd : (schemaKeys schema).Nodup) (hm : (c, r) ∈ schema)
    (hf : r.transform = some f) (hu : getProp props c = Value.undef) :
    getProp (callTransformsIntermediate schema props) c = f Value.undef ∧
    hasKey (callTransformsIntermediate schema props) c = true := by
  constructor
  · have h := callTransformsPhase1_getProp_mem schema props c r f hnd hm hf
    rw [hu] at h
    exact h
  · exact callTransformsPhase1_hasKey_mem schema props c r f hm hf

/-- A transform that manufactures a value out of an absent one. -/
def c10Rule : Rule := { transform := some (fun _ => Value.str "gen") }

/-- The single-column schema of the C10 witness. -/
def c10Schema : Schema := [("token", c10Rule)]

/-- Witness for C10: the transform of the unset `token` column runs on
`undefined` and its result is written into properties. -/
theorem transform_runs_on_unset_column_witness :
    getProp (callTransformsIntermediate c10Schema []) "token" =
      Value.str "gen" ∧
    hasKey (callTransformsIntermediate c10Schema []) "token" = true := by
  have h := transform_runs_on_unset_column c10Schema [] "token" c10Rule
    (fun _ => Value.str "gen") (by decide) (List.mem_singleton.mpr rfl)
    rfl rfl
  exact ⟨h.1, h.2⟩

/-- The hidden column of the C8 counterexample. -/
def c8HiddenRule : Rule := { type := some ColType.string, hidden := true }

/-- The visible column of the C8 counterexample, colliding with the hidden
one under camel-casing. -/
def c8VisibleRule : Rule := { type := some ColType.string }

/-- A schema whose hidden column name is the camel-cased form of another,
visible column. -/
def c8CollideSchema : Schema :=
  [("fooBar", c8HiddenRule), ("foo_bar", c8VisibleRule)]

/-- Properties holding only the visible colliding column. -/
def c8CollideProps : Props := [("foo_bar", Value.str "x")]

/-- Counterexample for C8 as stated: schema column `fooBar` is flagged
hidden and the instance stores only the visible column `foo_bar` (its
keys all lie in the schema), yet `toJSON` emits the key `fooBar` — the
hidden column's access-convention name — because camel-casing maps the
visible `foo_bar` onto it.  "Contains no key for any column flagged
hidden" therefore fails for schemas whose columns collide under
camel-casing (the hidden value itself is still omitted). -/
theorem toJSON_hidden_key_collision_cex :
    c8HiddenRule.hidden = true ∧
    (∀ k, k ∈ keysOf c8CollideProps → k ∈ schemaKeys c8CollideSchema) ∧
    toJSON c8CollideSchema c8CollideProps = [("fooBar", Value.str "x")] ∧
    camelCase "fooBar" = "fooBar" :=
  ⟨rfl, by decide, rfl, rfl⟩

/-- Claim C8 (amended): provided the instance invariant holds (property
keys lie in the schema) and distinct schema columns have distinct
camel-cased forms, `toJSON` output contains no key of any hidden column
(in access-convention form), regardless of the values currently stored,
and every key it does contain is the camel-cased (access-convention) form
of some stored property key. -/
theorem toJSON_hides_hidden_amended (schema : Schema) (props : Props)
    (hsub : ∀ k, k ∈ keysOf props → k ∈ schemaKeys schema)
    (hinj : (schemaKeys schema).Pairwise
      (fun a b => camelCase a = camelCase b → a = b)) :
    (∀ h r, (h, r) ∈ schema → r.hidden = true →
      camelCase h ∉ keysOf (toJSON schema props)) ∧
    (∀ k, k ∈ keysOf (toJSON schema props) →
      ∃ c, c ∈ keysOf props ∧ k = camelCase c) := by
  have hkeys : ∀ k, k ∈ keysOf (toJSON schema props) →
      ∃ c, c ∈ keysOf (omitKeys props (hiddenColumns schema)) ∧
        k = camelCase c := by
    intro k hk
    unfold toJSON camelCased at hk
    rcases mem_keysOf_camelCasedAux _ _ k hk with h0 | ⟨c, hc, hkc⟩
    · simp [keysOf] at h0
    · exact ⟨c, hc, hkc⟩
  constructor
  · intro h r hm hh hk
    rcases hkeys _ hk with ⟨c, hc, hkc⟩
    rcases mem_keysOf_omitKeys _ _ _ hc with ⟨hcp, hcont⟩
    have hcs : c ∈ schemaKeys schema := hsub c hcp
    have hhs : h ∈ schemaKeys schema := List.mem_map.mpr ⟨(h, r), hm, rfl⟩
    have hsymm : Symmetric
        (fun a b : String => camelCase a = camelCase b → a = b) :=
      fun a b hab heq => (hab heq.symm).symm
    have hch : c = h := by
      by_cases hne : c = h
      · exact hne
      · exact absurd ((List.Pairwise.forall hsymm hinj hcs hhs hne)
          hkc.symm) hne
    have hmem : h ∈ hiddenColumns schema := mem_hiddenColumns schema h r hm hh
    rw [hch] at hcont
    have hcontains : (hiddenColumns schema).contains h = true :=
      List.elem_iff.mpr hmem
    rw [hcontains] at hcont
    exact Bool.noConfusion hcont
  · intro k hk
    rcases hkeys k hk with ⟨c, hc, hkc⟩
    exact ⟨c, (mem_keysOf_omitKeys _ _ _ hc).1, hkc⟩

/-- The hidden password column of the C8 witness. -/
def c8PwRule : Rule := { type := some ColType.string, hidden := true }

/-- The User-like schema of the C8 witness. -/
def c8Schema : Schema :=
  [("id", { type := some ColType.integer, primaryKey := true }),
   ("password", c8PwRule),
   ("name", { type := some ColType.string })]

/-- Properties of the C8 witness, with the hidden column populated. -/
def c8Props : Props :=
  [("id", Value.int 1), ("password", Value.str "secret"),
   ("name", Value.str "Hawk")]

/-- Witness for C8 (amended) on a populated User-like instance. -/
theorem toJSON_hides_hidden_witness :
    camelCase "password" ∉ keysOf (toJSON c8Schema c8Props) ∧
    (∀ k, k ∈ keysOf (toJSON c8Schema c8Props) →
      ∃ c, c ∈ keysOf c8Props ∧ k = camelCase c) := by
  have h := toJSON_hides_hidden_amended c8Schema c8Props (by decide)
    (by decide)
  exact ⟨h.1 "password" c8PwRule
    (List.mem_cons_of_mem _ (List.mem_cons_self _ _)) rfl, h.2⟩

/-- Claim C9: the invariants of a normally constructed instance: the
seeded property keys lie within the schema; the accessor set is exactly
the schema columns (one getter/setter pair each); `setDefaults` and the
whole transform pipeline preserve the key invariant; `validate` leaves
properties untouched; an accessor write on a schema column keeps keys
within the schema; and a write to a non-accessor key lands in ordinary
instance fields, leaving the properties mapping unchanged. -/
theorem instance_schema_invariant (schema : Schema) (attrs : Props) :
    (∀ k, k ∈ keysOf (initProps schema attrs) → k ∈ schemaKeys schema) ∧
    (truthy (getProp attrs "_empty") = false →
      (construct schema attrs).accessors = schemaKeys schema) ∧
    ((schemaKeys schema).Nodup → truthy (getProp attrs "_empty") = false →
      ∀ c, c ∈ schemaKeys schema →
        (construct schema attrs).accessors.count c = 1) ∧
    (∀ p, (∀ k, k ∈ keysOf p → k ∈ schemaKeys schema) →
      ∀ k, k ∈ keysOf (setDefaults schema p) → k ∈ schemaKeys schema) ∧
    (∀ p, (∀ k, k ∈ keysOf p → k ∈ schemaKeys schema) →
      ∀ k, k ∈ keysOf (callTransformsFinal schema p) →
        k ∈ schemaKeys schema) ∧
    (∀ p, (validateSt schema p).2 = p) ∧
    (∀ q k v, k ∈ schemaKeys schema → ∀ x, x ∈ keysOf (setProp q k v) →
      x ∈ keysOf q ∨ x ∈ schemaKeys schema) ∧
    (∀ s k v, s.accessors.contains k = false →
      (writeProperty s k v).props = s.props ∧
      (writeProperty s k v).extraFields = setProp s.extraFields k v) := by
  have hacc : truthy (getProp attrs "_empty") = false →
      (construct schema attrs).accessors = schemaKeys schema := by
    intro he
    simp [construct, he]
  refine ⟨?_, hacc, ?_, ?_, ?_, ?_, ?_, ?_⟩
  · intro k hk
    rcases mem_keysOf_initPropsAux schema attrs [] k hk with h0 | h1
    · simp [keysOf] at h0
    · exact h1
  · intro hnd he c hc
    rw [hacc he]
    exact List.count_eq_one_of_mem hnd hc
  · intro p hp k hk
    rcases mem_keysOf_setDefaults schema p k hk with h | h
    · exact hp k h
    · exact h
  · intro p hp k hk
    unfold callTransformsFinal at hk
    rcases mem_keysOf_writeBack _ _ k hk with h | h
    · rcases mem_keysOf_phase1 schema p k h with h' | h'
      · exact hp k h'
      · exact h'
    · exact (callTransformsPhase1_pend_sublist schema p).subset h
  · exact fun p => validateSt_snd schema p
  · intro q k v hks x hx
    rcases mem_keysOf_setProp q k v x hx with h | h
    · right
      rw [h]
      exact hks
    · exact Or.inl h
  · intro s k v hc
    unfold writeProperty
    rw [if_neg (by rw [hc]; exact Bool.noConfusion)]
    exact ⟨rfl, rfl⟩

/-- The basic example's schema for the C9 witness. -/
def c9Schema : Schema :=
  [("id", { type := some ColType.integer, primaryKey := true }),
   ("name", { type := some ColType.string, notNull := true })]

/-- The attributes of the C9 witness. -/
def c9Attrs : Props := [("name", Value.str "Ormur")]

/-- Witness for C9 on the basic example's schema. -/
theorem instance_schema_invariant_witness :
    (construct c9Schema c9Attrs).accessors = schemaKeys c9Schema ∧
    (construct c9Schema c9Attrs).accessors.count "name" = 1 ∧
    (∀ k, k ∈ keysOf (setDefaults c9Schema c9Attrs) →
      k ∈ schemaKeys c9Schema) := by
  have h := instance_schema_invariant c9Schema c9Attrs
  refine ⟨h.2.1 rfl, ?_, ?_⟩
  · exact h.2.2.1 (by decide) rfl "name" (by decide)
  · exact h.2.2.2.1 c9Attrs (by decide)

end Ormur
